import Mathlib

/-!
Verification of the PDF document-structuring pipeline (repository `7567491/E2C`,
files `para.py` and `para-kimi.py`).

Strings are modelled as `List Char` (Python `str` is a sequence of code points).
Machine integers from the JSON payloads are modelled as `Int` (Python ints are
unbounded).  Fallible code returns `Except`/`Option`.  Each definition carries a
comment pointing at the source lines it embeds.
-/

namespace E2C

/-- Characters stripped by Python's `str.strip()` with no argument (the ASCII
whitespace class; the additional Unicode space code points accepted by CPython
are irrelevant to the payloads handled here and are omitted). -/
def pyIsSpace (c : Char) : Bool :=
  c = ' ' || c = '\t' || c = '\n' || c = '\r' || c = '\x0b' || c = '\x0c'

/-- Left part of Python `str.strip()`: drop leading whitespace. -/
def trimLeft (s : List Char) : List Char :=
  s.dropWhile pyIsSpace

/-- Right part of Python `str.strip()`: drop trailing whitespace. -/
def trimRight (s : List Char) : List Char :=
  (s.reverse.dropWhile pyIsSpace).reverse

/-- Python `s.strip()`: drop leading and trailing whitespace. -/
def pyStrip (s : List Char) : List Char :=
  trimRight (trimLeft s)

/-- Effective index of a Python slice bound `i` for a sequence of length `n`:
negative indices count from the end (clamped below at 0), non-negative
indices are clamped above at `n`.  This is CPython's `PySlice_AdjustIndices`
for step 1. -/
def sliceIndex (n : Nat) (i : Int) : Nat :=
  if i < 0 then ((n : Int) + i).toNat else min i.toNat n

/-- Python slice `s[a:b]` (step 1): never raises, indices are adjusted by
`sliceIndex`. -/
def pySlice (s : List Char) (a b : Int) : List Char :=
  (s.take (sliceIndex s.length b)).drop (sliceIndex s.length a)

/-- Number of words of Python `len(s.split())`: maximal runs of
non-whitespace characters.  `inWord` records whether the previous character
was part of a word. -/
def countWordsAux : List Char → Bool → Nat
  | [], _ => 0
  | c :: rest, inWord =>
    if pyIsSpace c then countWordsAux rest false
    else (if inWord then 0 else 1) + countWordsAux rest true

/-- Python `len(s.split())`. -/
def countWords (s : List Char) : Nat :=
  countWordsAux s false

/-- A section descriptor as decoded from the LLM's JSON (`para.py` prompt,
lines 51-60): `heading_level`, `chapter_path`, `start_position`,
`end_position`.  Offsets are `Int` because the model may emit any integer. -/
structure Section where
  heading_level : Int
  chapter_path : List Char
  start_position : Int
  end_position : Int
deriving DecidableEq, Repr

/-- A paragraph record as built by `_create_paragraph_dict` (`para.py`
lines 244-266).  The `paragraph_id` field (`str(uuid.uuid4())`, a fresh random
identifier) is nondeterministic and carries no information about the other
fields, so it is omitted from the embedding. -/
structure ParagraphRecord where
  heading_level : Int
  chapter : List Char
  content : List Char
  word_count : Nat
  translation_status : List Char
  page : Int
  sequence : Option Nat
deriving DecidableEq, Repr

/-- `PDFProcessor._create_paragraph_dict` (`para.py` lines 244-266).
For headings (`heading_level > 0`) the chapter is `'#' * heading_level + ' '
+ content`; for body text it is `chapter_path if chapter_path else "未类"`
(the empty string is falsy in Python). -/
def create_paragraph_dict (content : List Char) (heading_level : Int)
    (chapter_path : List Char) (page_num : Int) : ParagraphRecord :=
  let formatted_chapter :=
    if 0 < heading_level then
      List.replicate heading_level.toNat '#' ++ " ".data ++ content
    else
      if chapter_path = [] then ("未类".data) else chapter_path
  { heading_level := heading_level
  , chapter := formatted_chapter
  , content := pyStrip content
  , word_count := countWords content
  , translation_status := "pending".data
  , page := page_num
  , sequence := none }

/-- `PDFProcessor._estimate_page_number` (`para.py` lines 268-272):
`max(1, start_position // chars_per_page + 1)` with `chars_per_page = 2000`.
Python `//` is floor division, i.e. `Int.fdiv`.  The `full_text` argument is
accepted and ignored, exactly as in the source. -/
def estimate_page_number (start_position : Int) (full_text : List Char) : Int :=
  let chars_per_page : Int := 2000
  max 1 (start_position.fdiv chars_per_page + 1)

/-- The section-materialisation loop of `PDFProcessor.extract_text`
(`para.py` lines 224-238): for each descriptor, in array order, slice the full
text between `start_position` and `end_position`, strip it, and build the
paragraph dict.  The surrounding PDF reading and the LLM call are external
collaborators; this function takes the full text and the decoded descriptors
directly. -/
def extract_text (full_text : List Char) (sections : List Section) :
    List ParagraphRecord :=
  sections.map fun sec =>
    let content := pyStrip (pySlice full_text sec.start_position sec.end_position)
    create_paragraph_dict content sec.heading_level sec.chapter_path
      (estimate_page_number sec.start_position full_text)

namespace Kimi

/-- `PDFProcessor._estimate_page_number` (`para-kimi.py` lines 166-169):
identical formula `max(1, position // 2000 + 1)`. -/
def estimate_page_number (position : Int) (full_text : List Char) : Int :=
  max 1 (position.fdiv 2000 + 1)

/-- `PDFProcessor._create_paragraph_dict` (`para-kimi.py` lines 171-200).
For body text the chapter is built from a `chapter_stack` of
`(level, title)` pairs: each entry is rendered `'#' * level + ' ' + title` and
the entries are joined with `" > "`; the literal `"未分类"` is used only when
the stack is empty.  (The caller at lines 152-157 always passes the singleton
stack `[(heading_level, chapter_path)]`.) -/
def create_paragraph_dict (content : List Char) (heading_level : Int)
    (chapter_stack : List (Int × List Char)) (page_num : Int) : ParagraphRecord :=
  let chapter_path :=
    if 0 < heading_level then
      List.replicate heading_level.toNat '#' ++ " ".data ++ content
    else
      if chapter_stack ≠ [] then
        List.intercalate (" > ".data)
          (chapter_stack.map fun lt =>
            List.replicate lt.1.toNat '#' ++ " ".data ++ lt.2)
      else ("未分类".data)
  { heading_level := heading_level
  , chapter := chapter_path
  , content := pyStrip content
  , word_count := countWords content
  , translation_status := "pending".data
  , page := page_num
  , sequence := none }

end Kimi

/-! ### Python `str.startswith` / `str.endswith` -/

/-- Python `s.startswith(pre)`. -/
def pyStartswith (s pre : List Char) : Bool :=
  match s, pre with
  | _, [] => true
  | [], _ :: _ => false
  | c :: s', p :: pre' => c == p && pyStartswith s' pre'

/-- Python `s.endswith(suf)`. -/
def pyEndswith (s suf : List Char) : Bool :=
  pyStartswith s.reverse suf.reverse

/-- True when the list is nonempty and its head is not Python whitespace.
Used to reason about `pyStrip` without naming concrete characters. -/
def headNotWs (l : List Char) : Bool :=
  match l with
  | [] => false
  | c :: _ => !pyIsSpace c

/-! ### A JSON value and a strict decoder modelling Python `json.loads`

`json.loads` is the standard-library strict JSON decoder (RFC 8259 plus the
CPython extensions `NaN`/`Infinity`/`-Infinity`).  Numbers are kept as their
raw lexemes (the pipeline never inspects numeric values of the payload), and
surrogate-pair `\uXXXX` escapes are decoded code-unit-wise rather than
pairwise — a fidelity edge no theorem below depends on. -/

inductive JValue where
  | null
  | bool (b : Bool)
  | num (lexeme : List Char)
  | str (s : List Char)
  | arr (items : List JValue)
  | obj (fields : List (List Char × JValue))

/-- A parse failure: CPython-style message plus the unconsumed input at the
point of failure (from which the absolute position is recovered). -/
structure ParseErr where
  msg : String
  rest : List Char

/-- JSON insignificant whitespace (CPython `WHITESPACE` regex): space,
tab, line feed, carriage return — code points 32, 9, 10, 13. -/
def jsonWs (c : Char) : Bool :=
  let n := c.toNat
  n = 32 || n = 9 || n = 10 || n = 13

/-- Skip insignificant JSON whitespace. -/
def trimJsonWs (s : List Char) : List Char :=
  s.dropWhile jsonWs

/-- Decimal digit test for the JSON number grammar. -/
def isDigitChar (c : Char) : Bool :=
  '0' ≤ c && c ≤ '9'

/-- Hex digit value for `\uXXXX` escapes (code points 48-57 are the
digits, 97-102 lower-case a-f, 65-70 upper-case A-F). -/
def hexVal (c : Char) : Option Nat :=
  let n := c.toNat
  if 48 ≤ n ∧ n ≤ 57 then some (n - 48)
  else if 97 ≤ n ∧ n ≤ 102 then some (n - 87)
  else if 65 ≤ n ∧ n ≤ 70 then some (n - 55)
  else none

/-- Fractional and exponent parts of the JSON number grammar
`(\.\d+)?([eE][-+]?\d+)?`, appended to the integer lexeme. -/
def parseFracExp (intLex : List Char) (s : List Char) :
    Except ParseErr (JValue × List Char) :=
  let fe : List Char × List Char :=
    match s with
    | '.' :: rest =>
      let ds := rest.takeWhile isDigitChar
      if ds = [] then ([], s) else ('.' :: ds, rest.drop ds.length)
    | _ => ([], s)
  let s1 := fe.2
  let ee : List Char × List Char :=
    match s1 with
    | c :: rest =>
      if c == 'e' || c == 'E' then
        let se : List Char × List Char :=
          match rest with
          | '+' :: r => (['+'], r)
          | '-' :: r => (['-'], r)
          | _ => ([], rest)
        let ds := se.2.takeWhile isDigitChar
        if ds = [] then ([], s1) else (c :: (se.1 ++ ds), se.2.drop ds.length)
      else ([], s1)
    | [] => ([], s1)
  .ok (.num (intLex ++ fe.1 ++ ee.1), ee.2)

/-- The integer part of the JSON number grammar `-?(0|[1-9]\d*)`; `s` is
known to start with a minus sign or a digit. -/
def parseNumber (s : List Char) : Except ParseErr (JValue × List Char) :=
  let ns : List Char × List Char :=
    match s with
    | '-' :: rest => (['-'], rest)
    | _ => ([], s)
  match ns.2 with
  | c :: rest =>
    if c == '0' then parseFracExp (ns.1 ++ ['0']) rest
    else if isDigitChar c then
      let ds := ns.2.takeWhile isDigitChar
      parseFracExp (ns.1 ++ ds) (ns.2.drop ds.length)
    else .error ⟨"Expecting value", s⟩
  | [] => .error ⟨"Expecting value", s⟩

/-- Body of a JSON string after the opening quote; `acc` is the decoded
text in reverse. -/
def parseStringBody : Nat → List Char → List Char →
    Except ParseErr (List Char × List Char)
  | 0, _, s => .error ⟨"fuel exhausted", s⟩
  | fuel + 1, acc, s =>
    match s with
    | [] => .error ⟨"Unterminated string", s⟩
    | '"' :: rest => .ok (acc.reverse, rest)
    | '\\' :: rest =>
      match rest with
      | [] => .error ⟨"Unterminated string", rest⟩
      | e :: rest2 =>
        if e == '"' then parseStringBody fuel ('"' :: acc) rest2
        else if e == '\\' then parseStringBody fuel ('\\' :: acc) rest2
        else if e == '/' then parseStringBody fuel ('/' :: acc) rest2
        else if e == 'b' then parseStringBody fuel ('\x08' :: acc) rest2
        else if e == 'f' then parseStringBody fuel ('\x0c' :: acc) rest2
        else if e == 'n' then parseStringBody fuel ('\n' :: acc) rest2
        else if e == 'r' then parseStringBody fuel ('\r' :: acc) rest2
        else if e == 't' then parseStringBody fuel ('\t' :: acc) rest2
        else if e == 'u' then
          match rest2 with
          | h1 :: h2 :: h3 :: h4 :: rest3 =>
            match hexVal h1, hexVal h2, hexVal h3, hexVal h4 with
            | some a, some b, some c, some d =>
              parseStringBody fuel
                (Char.ofNat (((a * 16 + b) * 16 + c) * 16 + d) :: acc) rest3
            | _, _, _, _ => .error ⟨"Invalid \\uXXXX escape", rest2⟩
          | _ => .error ⟨"Invalid \\uXXXX escape", rest2⟩
        else .error ⟨"Invalid \\escape", rest⟩
    | c :: rest =>
      if c.toNat < 0x20 then .error ⟨"Invalid control character", s⟩
      else parseStringBody fuel (c :: acc) rest

/-- The state of the recursive-descent scanner: about to read a value, or
inside an array (CPython `JSONArray`: `first` is true before any element,
`acc` holds elements in reverse), or inside an object (CPython
`JSONObject`, same conventions).  A single state type keeps the whole
scanner one structurally recursive function on its fuel, so that it reduces
definitionally. -/
inductive PMode where
  | value
  | items (first : Bool) (acc : List JValue)
  | itemsValue (acc : List JValue)
  | members (first : Bool) (acc : List (List Char × JValue))
  | membersPair (acc : List (List Char × JValue))

/-- The recursive-descent scanner of CPython `json.loads`: in `.value` mode
parse one JSON value at `s` (no leading whitespace); in array/object modes
parse the remaining elements/members after the opening bracket (whitespace
already skipped) and return the completed `.arr`/`.obj`.  An empty
container is accepted only before the first element; after a comma an
element (resp. a quoted property name) is required.  `fuel` bounds the
recursion; `jsonDecode` supplies enough for any input. -/
def parseRun : Nat → PMode → List Char →
    Except ParseErr (JValue × List Char)
  | 0, _, s => .error ⟨"fuel exhausted", s⟩
  | fuel + 1, .value, s =>
    match s with
    | [] => .error ⟨"Expecting value", s⟩
    | c :: rest =>
      if c == '"' then
        match parseStringBody (rest.length + 1) [] rest with
        | .error e => .error e
        | .ok (str, r) => .ok (.str str, r)
      else if c == '\x7b' then parseRun fuel (.members true []) (trimJsonWs rest)
      else if c == '[' then parseRun fuel (.items true []) (trimJsonWs rest)
      else if pyStartswith s ("null".data) then .ok (.null, s.drop 4)
      else if pyStartswith s ("true".data) then .ok (.bool true, s.drop 4)
      else if pyStartswith s ("false".data) then .ok (.bool false, s.drop 5)
      else if pyStartswith s ("NaN".data) then .ok (.num ("NaN".data), s.drop 3)
      else if pyStartswith s ("Infinity".data) then
        .ok (.num ("Infinity".data), s.drop 8)
      else if pyStartswith s ("-Infinity".data) then
        .ok (.num ("-Infinity".data), s.drop 9)
      else if c == '-' || isDigitChar c then parseNumber s
      else .error ⟨"Expecting value", s⟩
  | fuel + 1, .items first acc, s =>
    match s with
    | ']' :: rest =>
      if first then .ok (.arr acc.reverse, rest)
      else parseRun fuel (.itemsValue acc) s
    | _ => parseRun fuel (.itemsValue acc) s
  | fuel + 1, .itemsValue acc, s =>
    match parseRun fuel .value s with
    | .error e => .error e
    | .ok (v, r) =>
      match trimJsonWs r with
      | ']' :: rest => .ok (.arr (v :: acc).reverse, rest)
      | ',' :: rest => parseRun fuel (.items false (v :: acc)) (trimJsonWs rest)
      | r' => .error ⟨"Expecting \x27,\x27 delimiter", r'⟩
  | fuel + 1, .members first acc, s =>
    match s with
    | '\x7d' :: rest =>
      if first then .ok (.obj acc.reverse, rest)
      else parseRun fuel (.membersPair acc) s
    | _ => parseRun fuel (.membersPair acc) s
  | fuel + 1, .membersPair acc, s =>
    match s with
    | '"' :: rest =>
      match parseStringBody (rest.length + 1) [] rest with
      | .error e => .error e
      | .ok (key, r) =>
        match trimJsonWs r with
        | ':' :: rest2 =>
          match parseRun fuel .value (trimJsonWs rest2) with
          | .error e => .error e
          | .ok (v, r2) =>
            match trimJsonWs r2 with
            | '\x7d' :: rest3 => .ok (.obj ((key, v) :: acc).reverse, rest3)
            | ',' :: rest3 =>
              parseRun fuel (.members false ((key, v) :: acc)) (trimJsonWs rest3)
            | r' => .error ⟨"Expecting \x27,\x27 delimiter", r'⟩
        | r' => .error ⟨"Expecting \x27:\x27 delimiter", r'⟩
    | _ => .error ⟨"Expecting property name enclosed in double quotes", s⟩

/-- Parse one JSON value (the scanner in `.value` mode). -/
def parseValue (fuel : Nat) (s : List Char) :
    Except ParseErr (JValue × List Char) :=
  parseRun fuel .value s

/-- The exception object of Python `json.JSONDecodeError`.  Its attributes
are exactly `msg`, `doc`, `pos`, `lineno`, `colno` (CPython
`json/decoder.py`). -/
structure JSONDecodeError where
  msg : String
  doc : List Char
  pos : Nat
  lineno : Nat
  colno : Nat
deriving DecidableEq, Repr

/-- CPython: `lineno = doc.count(newline, 0, pos) + 1`. -/
def linenoOf (doc : List Char) (pos : Nat) : Nat :=
  (doc.take pos).count '\n' + 1

/-- CPython: `colno = pos - doc.rfind(newline, 0, pos)` (`rfind` yields `-1`
when absent): one plus the distance to the previous newline. -/
def colnoOf (doc : List Char) (pos : Nat) : Nat :=
  ((doc.take pos).reverse.takeWhile (fun c => c != '\n')).length + 1

/-- Build the exception as CPython's `JSONDecodeError.__init__` does. -/
def mkJSONDecodeError (msg : String) (doc : List Char) (pos : Nat) :
    JSONDecodeError :=
  ⟨msg, doc, pos, linenoOf doc pos, colnoOf doc pos⟩

/-- Python `json.loads(doc)`: skip leading whitespace, parse one value,
require only whitespace to remain ("Extra data" otherwise).  The fuel
`4 * length + 8` over-approximates the scanner's steps (at most four mode
transitions per consumed character); CPython instead aborts deep nesting
with a `RecursionError`. -/
def jsonDecode (doc : List Char) : Except JSONDecodeError JValue :=
  match parseValue (4 * doc.length + 8) (trimJsonWs doc) with
  | .error e => .error (mkJSONDecodeError e.msg doc (doc.length - e.rest.length))
  | .ok (v, rest) =>
    match trimJsonWs rest with
    | [] => .ok v
    | rest' =>
      .error (mkJSONDecodeError ("Extra data") doc (doc.length - rest'.length))

/-! ### Fence stripping and the structured-result validation
(`analyze_document`, `para.py` lines 140-163) -/

/-- Lines 141-143 of `para.py`: `if content.startswith('```json'):
content = content[7:]` — note that a *bare* leading fence is not handled. -/
def stripOpen (c : List Char) : List Char :=
  if pyStartswith c ("```json".data) then c.drop 7 else c

/-- Lines 144-145 of `para.py`: `if content.endswith('```'):
content = content[:-3]`. -/
def stripClose (c : List Char) : List Char :=
  if pyEndswith c ("```".data) then c.take (c.length - 3) else c

/-- Lines 140-146 of `para.py`: strip the payload, remove the `'```json'`
opening marker if present, remove a trailing `'```'` marker if present,
strip again. -/
def stripFences (full_content : List Char) : List Char :=
  pyStrip (stripClose (stripOpen (pyStrip full_content)))

/-- Python `x in v` for a string `x` and a decoded JSON value `v`:
key membership for objects, element equality for arrays (a string can only
equal a string element), substring for strings, and `TypeError` (modelled as
`.error ()`) for the non-container scalars. -/
def pyContains (x : List Char) : JValue → Except Unit Bool
  | .obj fields => .ok (fields.any fun kv => kv.1 = x)
  | .arr items =>
    .ok (items.any fun v =>
      match v with
      | .str s => s = x
      | _ => false)
  | .str s =>
    .ok ((List.range (s.length + 1)).any fun i => pyStartswith (s.drop i) x)
  | _ => .error ()

/-- Outcome of the parse-and-validate tail of `analyze_document`
(`para.py` lines 140-163): the decoded value, or a `json.JSONDecodeError`,
or the `ValueError` raised when the `sections` field is missing (its exact
message), or a `TypeError` from the `in` test on a non-container. -/
inductive AnalyzeOutcome where
  | ok (v : JValue)
  | jsonError (e : JSONDecodeError)
  | schemaError (msg : List Char)
  | typeError

/-- True exactly on the success outcome. -/
def AnalyzeOutcome.isOk : AnalyzeOutcome → Bool
  | .ok _ => true
  | _ => false

/-- Lines 140-163 of `para.py`: fence-strip the assembled payload, decode it
strictly, and require a top-level `sections` member
(`if 'sections' not in parsed_result: raise ValueError(...)`). -/
def analyze_document_parse (full_content : List Char) : AnalyzeOutcome :=
  match jsonDecode (stripFences full_content) with
  | .error e => .jsonError e
  | .ok parsed =>
    match pyContains ("sections".data) parsed with
    | .error _ => .typeError
    | .ok true => .ok parsed
    | .ok false => .schemaError ("返回的JSON缺少\x27sections\x27字段".data)

/-! ### The streaming response assembler
(`analyze_document`, `para.py` lines 113-132) -/

/-- Python `dict[key]` lookup on a decoded JSON object: with duplicate keys
the last occurrence wins, as in a `dict` built by `json.loads`.  `none`
covers both `KeyError` (missing key) and `TypeError` (subscripting a
non-object by a string) — both are caught by the loop's `except` clause. -/
def objGet (fields : List (List Char × JValue)) (key : List Char) :
    Option JValue :=
  fields.foldl (fun acc kv => if kv.1 = key then some kv.2 else acc) none

/-- The text fragment contributed by one decoded chunk, lines 124-129 of
`para.py`: `none` means the body of the `try` raised
(`KeyError`/`IndexError`/`TypeError`/`AttributeError`) or hit `continue`, so
nothing is appended; `some frag` means `frag` is appended (the empty
fragment covers the falsy `content` case, where nothing is appended
either). -/
def chunkFragment (data : JValue) : Option (List Char) :=
  match data with
  | .obj fields =>
    match objGet fields ("choices".data) with
    | some (.arr (c0 :: _)) =>
      match c0 with
      | .obj cf =>
        match objGet cf ("finish_reason".data) with
        | none => none
        | some fr =>
          match fr with
          | .null =>
            match objGet cf ("delta".data) with
            | some (.obj df) =>
              match objGet df ("content".data) with
              | none => some []
              | some (.str frag) => some frag
              | some _ => some []
            | _ => none
          | _ => none
      | _ => none
    | _ => none
  | _ => none

/-- One iteration of the streaming loop, lines 117-132 of `para.py`:
skip falsy (empty) lines; for lines with the `'data: '` marker decode the
JSON after the marker and append the chunk's fragment; any failure inside
the `try` is caught, logged and skipped (`continue`), leaving the
accumulator unchanged. -/
def streamStep (acc : List Char) (line : List Char) : List Char :=
  if line = [] then acc
  else if pyStartswith line ("data: ".data) then
    match jsonDecode (line.drop 6) with
    | .error _ => acc
    | .ok data =>
      match chunkFragment data with
      | none => acc
      | some frag => if frag = [] then acc else acc ++ frag
  else acc

/-- The whole streaming loop: fold `streamStep` over the delivered lines
starting from the empty accumulator (`full_content = ""`). -/
def assembleStream (lines : List (List Char)) : List Char :=
  lines.foldl streamStep []

/-- The fragment a single line contributes to the accumulator. -/
def lineFragment (line : List Char) : List Char :=
  if line = [] then []
  else if pyStartswith line ("data: ".data) then
    match jsonDecode (line.drop 6) with
    | .error _ => []
    | .ok data => (chunkFragment data).getD []
  else []

/-- A well-formed content chunk line carrying the fragment `frag`: it bears
the `'data: '` marker, its JSON decodes, and the decoded chunk yields
`frag`. -/
def isContentChunk (line frag : List Char) : Prop :=
  pyStartswith line ("data: ".data) = true ∧
  ∃ data, jsonDecode (line.drop 6) = .ok data ∧ chunkFragment data = some frag

/-! ### The JSON-failure report handler
(`analyze_document`, `para.py` lines 165-174) -/

/-- A Python value as printed by the handler. -/
inductive PyVal where
  | vStr (s : String)
  | vChars (cs : List Char)
  | vNat (n : Nat)
deriving DecidableEq, Repr

/-- The attribute table of a `json.JSONDecodeError` instance: CPython
defines exactly `msg`, `doc`, `pos`, `lineno`, `colno` — there is no `char`
attribute. -/
def jsonDecodeErrorAttrs (e : JSONDecodeError) : List (String × PyVal) :=
  [("msg", .vStr e.msg), ("doc", .vChars e.doc), ("pos", .vNat e.pos),
   ("lineno", .vNat e.lineno), ("colno", .vNat e.colno)]

/-- Python attribute access `e.<name>` on the exception: `none` is an
`AttributeError`. -/
def getattrJsonError (e : JSONDecodeError) (name : String) : Option PyVal :=
  ((jsonDecodeErrorAttrs e).find? (fun kv => kv.1 = name)).map (fun kv => kv.2)

/-- One printed line of the `except json.JSONDecodeError` handler. -/
inductive ReportItem where
  | errorHeader (msg : String)
  | errorPosition (lineno colno : Nat)
  | errorChar (v : PyVal)
  | problemLineHeader
  | sourceLine (line : List Char)
  | caret (colno : Nat)
deriving DecidableEq, Repr

/-- How the handler terminates. -/
inductive HandlerExit where
  | attributeError
  | reraisedDecodeError
deriving DecidableEq, Repr

/-- Lines 165-174 of `para.py`: print the message and the line/column, then
evaluate `e.char` — an attribute `json.JSONDecodeError` does not have, so an
`AttributeError` is raised and the handler aborts before printing the
problem line.  The remainder (printing `lines[e.lineno - 1]` and a caret,
then `raise`) is transcribed but unreachable. -/
def jsonErrorHandler (e : JSONDecodeError) (content : List Char) :
    List ReportItem × HandlerExit :=
  let base := [ReportItem.errorHeader e.msg,
    ReportItem.errorPosition e.lineno e.colno]
  match getattrJsonError e ("char") with
  | none => (base, .attributeError)
  | some v =>
    let ls := content.splitOn '\n'
    let tail :=
      if e.lineno ≤ ls.length then
        [ReportItem.sourceLine (ls.getD (e.lineno - 1) []),
         ReportItem.caret e.colno]
      else []
    (base ++ [ReportItem.errorChar v, ReportItem.problemLineHeader] ++ tail,
      .reraisedDecodeError)

/-- The decode-and-report behaviour of `analyze_document` on its assembled
payload: on a decode failure the handler runs on the stripped content (the
`content` variable in scope at line 170). -/
def analyze_document_report (full_content : List Char) :
    List ReportItem × Option HandlerExit :=
  match jsonDecode (stripFences full_content) with
  | .error e =>
    let r := jsonErrorHandler e (stripFences full_content)
    (r.1, some r.2)
  | .ok _ => ([], none)

/-! ### Helper lemmas about Python string primitives -/

theorem dropWhile_dropWhile {α : Type} (p : α → Bool) (l : List α) :
    (l.dropWhile p).dropWhile p = l.dropWhile p := by
  induction l with
  | nil => rfl
  | cons a l ih =>
    by_cases h : p a
    · simp [List.dropWhile_cons, h, ih]
    · simp [List.dropWhile_cons, h]

theorem dropWhile_head_false {α : Type} (p : α → Bool) (l : List α) :
    l.dropWhile p = [] ∨ ∃ a t, l.dropWhile p = a :: t ∧ p a = false := by
  induction l with
  | nil => exact Or.inl rfl
  | cons a l ih =>
    by_cases h : p a
    · simpa [List.dropWhile_cons, h] using ih
    · exact Or.inr ⟨a, l, by simp [List.dropWhile_cons, h], by simp [h]⟩

theorem exists_dropWhile_decomp {α : Type} (p : α → Bool) (l : List α) :
    ∃ t, l = t ++ l.dropWhile p ∧ ∀ c ∈ t, p c = true := by
  induction l with
  | nil => exact ⟨[], rfl, by simp⟩
  | cons a l ih =>
    by_cases h : p a
    · obtain ⟨t, ht, hall⟩ := ih
      refine ⟨a :: t, ?_, ?_⟩
      · simpa [List.dropWhile_cons, h] using congrArg (a :: ·) ht
      · intro c hc
        rcases List.mem_cons.mp hc with rfl | hc
        · exact h
        · exact hall c hc
    · exact ⟨[], by simp [List.dropWhile_cons, h], by simp⟩

theorem trimRight_trimRight (l : List Char) :
    trimRight (trimRight l) = trimRight l := by
  unfold trimRight
  rw [List.reverse_reverse, dropWhile_dropWhile]

theorem exists_trimRight_decomp (l : List Char) :
    ∃ t, l = trimRight l ++ t ∧ ∀ c ∈ t, pyIsSpace c = true := by
  obtain ⟨t, ht, hall⟩ := exists_dropWhile_decomp pyIsSpace l.reverse
  refine ⟨t.reverse, ?_, ?_⟩
  · have h := congrArg List.reverse ht
    rw [List.reverse_reverse, List.reverse_append] at h
    exact h
  · intro c hc
    exact hall c (List.mem_reverse.mp hc)

theorem trimLeft_trimRight_of_head (m : List Char)
    (hm : m = [] ∨ ∃ a t, m = a :: t ∧ pyIsSpace a = false) :
    trimLeft (trimRight m) = trimRight m := by
  rcases hm with rfl | ⟨a, t, rfl, hpa⟩
  · rfl
  · obtain ⟨u, hu, _⟩ := exists_trimRight_decomp (a :: t)
    rcases hhead : trimRight (a :: t) with _ | ⟨b, v⟩
    · rfl
    · rw [hhead] at hu
      have hab : a = b := by
        simpa using congrArg (fun l => l.head?) hu
      subst hab
      show List.dropWhile pyIsSpace (a :: v) = a :: v
      simp [List.dropWhile_cons, hpa]

theorem trimLeft_pyStrip (l : List Char) : trimLeft (pyStrip l) = pyStrip l := by
  unfold pyStrip
  apply trimLeft_trimRight_of_head
  rcases dropWhile_head_false pyIsSpace l with h | ⟨a, t, h, hpa⟩
  · exact Or.inl h
  · exact Or.inr ⟨a, t, h, hpa⟩

theorem pyStrip_idem (l : List Char) : pyStrip (pyStrip l) = pyStrip l := by
  have h1 : pyStrip (pyStrip l) = trimRight (trimLeft (pyStrip l)) := rfl
  rw [h1, trimLeft_pyStrip]
  show trimRight (trimRight (trimLeft l)) = _
  rw [trimRight_trimRight]
  rfl

theorem exists_pyStrip_decomp (l : List Char) :
    ∃ pre post, l = pre ++ pyStrip l ++ post ∧
      (∀ c ∈ pre, pyIsSpace c = true) ∧ ∀ c ∈ post, pyIsSpace c = true := by
  obtain ⟨t, ht, hallt⟩ := exists_dropWhile_decomp pyIsSpace l
  obtain ⟨u, hu, hallu⟩ := exists_trimRight_decomp (trimLeft l)
  refine ⟨t, u, ?_, hallt, hallu⟩
  conv_lhs => rw [ht]
  rw [List.append_assoc]
  show t ++ trimLeft l = t ++ (trimRight (trimLeft l) ++ u)
  rw [← hu]

theorem sliceIndex_le (n : Nat) (i : Int) : sliceIndex n i ≤ n := by
  unfold sliceIndex
  split
  · omega
  · exact min_le_right _ _

theorem sliceIndex_of_valid (n : Nat) (i : Int) (h0 : 0 ≤ i) (hn : i ≤ (n : Int)) :
    sliceIndex n i = i.toNat := by
  unfold sliceIndex
  split
  · omega
  · omega

theorem pySlice_decomp (s : List Char) (a b : Int) :
    ∃ pre post, s = pre ++ pySlice s a b ++ post := by
  refine ⟨(s.take (sliceIndex s.length b)).take (sliceIndex s.length a),
    s.drop (sliceIndex s.length b), ?_⟩
  unfold pySlice
  rw [List.take_append_drop, List.take_append_drop]

theorem fdiv_2000_eq_ediv (a : Int) : a.fdiv 2000 = a / 2000 :=
  Int.fdiv_eq_ediv a (by decide)

/-! ### Fence-stripping helper lemmas -/

theorem pyStartswith_append (pre r : List Char) :
    pyStartswith (pre ++ r) pre = true := by
  induction pre with
  | nil =>
    cases r with
    | nil => rfl
    | cons c r => rfl
  | cons p pre ih => simp [pyStartswith, ih]

theorem pyEndswith_append (y suf : List Char) :
    pyEndswith (y ++ suf) suf = true := by
  unfold pyEndswith
  rw [List.reverse_append]
  exact pyStartswith_append suf.reverse y.reverse

theorem trimLeft_ws_append (w l : List Char)
    (hw : ∀ c ∈ w, pyIsSpace c = true) :
    trimLeft (w ++ l) = trimLeft l := by
  induction w with
  | nil => rfl
  | cons a w ih =>
    have ha : pyIsSpace a = true := hw a (List.mem_cons_self a w)
    show List.dropWhile _ (a :: (w ++ l)) = _
    rw [List.dropWhile_cons, if_pos ha]
    exact ih fun c hc => hw c (List.mem_cons_of_mem a hc)

theorem forall_of_trimLeft_eq_nil (l : List Char) (h : trimLeft l = []) :
    ∀ c ∈ l, pyIsSpace c = true := by
  induction l with
  | nil => simp
  | cons a l ih =>
    intro c hc
    by_cases ha : pyIsSpace a
    · rcases List.mem_cons.mp hc with rfl | hc
      · exact ha
      · refine ih ?_ c hc
        unfold trimLeft at h ⊢
        rwa [List.dropWhile_cons, if_pos ha] at h
    · exfalso
      unfold trimLeft at h
      rw [List.dropWhile_cons, if_neg ha] at h
      exact List.cons_ne_nil _ _ h

theorem trimLeft_eq_nil_of_forall (l : List Char)
    (h : ∀ c ∈ l, pyIsSpace c = true) : trimLeft l = [] := by
  have h2 := trimLeft_ws_append l [] h
  simpa [trimLeft] using h2

theorem dropWhile_append_left {α : Type} (p : α → Bool) (l w : List α)
    (h : l.dropWhile p ≠ []) :
    (l ++ w).dropWhile p = l.dropWhile p ++ w := by
  induction l with
  | nil => exact absurd rfl h
  | cons b l ih =>
    by_cases hb : p b
    · have h' : l.dropWhile p ≠ [] := by
        rwa [List.dropWhile_cons, if_pos hb] at h
      rw [List.cons_append, List.dropWhile_cons, if_pos hb,
        List.dropWhile_cons, if_pos hb, ih h']
    · rw [List.cons_append, List.dropWhile_cons, if_neg hb,
        List.dropWhile_cons, if_neg hb, List.cons_append]

theorem trimRight_append_ws (l w : List Char)
    (hw : ∀ c ∈ w, pyIsSpace c = true) :
    trimRight (l ++ w) = trimRight l := by
  unfold trimRight
  rw [List.reverse_append]
  have h := trimLeft_ws_append w.reverse l.reverse
    fun c hc => hw c (List.mem_reverse.mp hc)
  unfold trimLeft at h
  rw [h]

theorem pyStrip_ws_append (w l : List Char)
    (hw : ∀ c ∈ w, pyIsSpace c = true) :
    pyStrip (w ++ l) = pyStrip l := by
  unfold pyStrip
  rw [trimLeft_ws_append w l hw]

theorem pyStrip_append_ws (l w : List Char)
    (hw : ∀ c ∈ w, pyIsSpace c = true) :
    pyStrip (l ++ w) = pyStrip l := by
  by_cases h : trimLeft l = []
  · have hl : ∀ c ∈ l, pyIsSpace c = true := forall_of_trimLeft_eq_nil l h
    have hlw : ∀ c ∈ l ++ w, pyIsSpace c = true := by
      intro c hc
      rcases List.mem_append.mp hc with hc | hc
      · exact hl c hc
      · exact hw c hc
    unfold pyStrip
    rw [trimLeft_eq_nil_of_forall _ hlw, h]
  · unfold pyStrip trimLeft
    rw [dropWhile_append_left pyIsSpace l w h]
    exact trimRight_append_ws _ w hw

theorem pyStrip_sandwich (w1 x w2 : List Char)
    (h1 : ∀ c ∈ w1, pyIsSpace c = true) (h2 : ∀ c ∈ w2, pyIsSpace c = true) :
    pyStrip (w1 ++ x ++ w2) = pyStrip x := by
  rw [List.append_assoc, pyStrip_ws_append w1 (x ++ w2) h1,
    pyStrip_append_ws x w2 h2]

theorem headNotWs_append (l z : List Char) (h : headNotWs l = true) :
    headNotWs (l ++ z) = true := by
  cases l with
  | nil => exact absurd h (by simp [headNotWs])
  | cons c t => exact h

theorem trimLeft_of_headNotWs (l : List Char) (h : headNotWs l = true) :
    trimLeft l = l := by
  cases l with
  | nil => rfl
  | cons c t =>
    have hc : pyIsSpace c = false := by
      simpa [headNotWs] using h
    simp [trimLeft, List.dropWhile_cons, hc]

theorem trimRight_of_lastNotWs (l : List Char) (h : headNotWs l.reverse = true) :
    trimRight l = l := by
  unfold trimRight
  have : List.dropWhile pyIsSpace l.reverse = l.reverse :=
    trimLeft_of_headNotWs l.reverse h
  rw [this, List.reverse_reverse]

theorem pyStrip_of_ends (l : List Char) (h1 : headNotWs l = true)
    (h2 : headNotWs l.reverse = true) : pyStrip l = l := by
  unfold pyStrip
  rw [show trimLeft l = l from trimLeft_of_headNotWs l h1]
  exact trimRight_of_lastNotWs l h2

theorem stripFences_of_wrapped (P wsA wsB w0 w1 : List Char)
    (hA : ∀ c ∈ wsA, pyIsSpace c = true) (hB : ∀ c ∈ wsB, pyIsSpace c = true)
    (h0 : ∀ c ∈ w0, pyIsSpace c = true) (h1 : ∀ c ∈ w1, pyIsSpace c = true) :
    stripFences (w0 ++ "```json".data ++ wsA ++ P ++ wsB ++ "```".data ++ w1) =
      pyStrip P := by
  have hshape :
      w0 ++ "```json".data ++ wsA ++ P ++ wsB ++ "```".data ++ w1 =
        w0 ++ ("```json".data ++ (wsA ++ P ++ wsB ++ "```".data)) ++ w1 := by
    simp [List.append_assoc]
  have hX : headNotWs ("```json".data ++ (wsA ++ P ++ wsB ++ "```".data)) = true :=
    headNotWs_append _ _ (by decide)
  have hXr : headNotWs ("```json".data ++ (wsA ++ P ++ wsB ++ "```".data)).reverse
      = true := by
    have hr : ("```json".data ++ (wsA ++ P ++ wsB ++ "```".data)).reverse =
        ("```".data).reverse ++
          ((wsA ++ P ++ wsB).reverse ++ ("```json".data).reverse) := by
      simp [List.reverse_append, List.append_assoc]
    rw [hr]
    exact headNotWs_append _ _ (by decide)
  have hc0 : pyStrip (w0 ++ "```json".data ++ wsA ++ P ++ wsB ++ "```".data ++ w1)
      = "```json".data ++ (wsA ++ P ++ wsB ++ "```".data) := by
    rw [hshape, pyStrip_sandwich _ _ _ h0 h1]
    exact pyStrip_of_ends _ hX hXr
  unfold stripFences
  rw [hc0]
  have hopen : stripOpen ("```json".data ++ (wsA ++ P ++ wsB ++ "```".data)) =
      wsA ++ P ++ wsB ++ "```".data := by
    unfold stripOpen
    rw [if_pos (pyStartswith_append ("```json".data) _)]
    have h7 : ("```json".data).length = 7 := rfl
    rw [← h7, List.drop_left]
  rw [hopen]
  have hclose : stripClose (wsA ++ P ++ wsB ++ "```".data) = wsA ++ P ++ wsB := by
    have hshape2 : wsA ++ P ++ wsB ++ "```".data =
        (wsA ++ P ++ wsB) ++ "```".data := by
      simp [List.append_assoc]
    unfold stripClose
    rw [hshape2, if_pos (pyEndswith_append (wsA ++ P ++ wsB) "```".data)]
    have h3len : ("```".data).length = 3 := rfl
    have hlen : ((wsA ++ P ++ wsB) ++ "```".data).length =
        (wsA ++ P ++ wsB).length + 3 := by
      rw [List.length_append, h3len]
    rw [hlen]
    have h3 : (wsA ++ P ++ wsB).length + 3 - 3 = (wsA ++ P ++ wsB).length := by
      omega
    rw [h3, List.take_left]
  rw [hclose]
  exact pyStrip_sandwich wsA P wsB hA hB

theorem stripFences_of_plain (P : List Char)
    (hpre : pyStartswith (pyStrip P) "```json".data = false)
    (hsuf : pyEndswith (pyStrip P) "```".data = false) :
    stripFences P = pyStrip P := by
  unfold stripFences
  have hopen : stripOpen (pyStrip P) = pyStrip P := by
    unfold stripOpen
    rw [if_neg (by simp [hpre])]
  have hclose : stripClose (pyStrip P) = pyStrip P := by
    unfold stripClose
    rw [if_neg (by simp [hsuf])]
  rw [hopen, hclose]
  exact pyStrip_idem P

/-! ### Streaming-assembler helper lemmas -/

theorem streamStep_eq (acc line : List Char) :
    streamStep acc line = acc ++ lineFragment line := by
  unfold streamStep lineFragment
  by_cases h0 : line = []
  · simp [h0]
  · rw [if_neg h0, if_neg h0]
    by_cases h1 : pyStartswith line ("data: ".data)
    · rw [if_pos h1, if_pos h1]
      cases jsonDecode (line.drop 6) with
      | error e => simp
      | ok data =>
        cases hf : chunkFragment data with
        | none => simp [hf]
        | some frag =>
          by_cases hfrag : frag = []
          · simp [hf, hfrag]
          · simp [hf, hfrag]
    · rw [if_neg h1, if_neg h1]
      simp

theorem assembleStream_eq_join (lines : List (List Char)) :
    assembleStream lines = (lines.map lineFragment).flatten := by
  suffices h : ∀ acc, lines.foldl streamStep acc =
      acc ++ (lines.map lineFragment).flatten by
    simpa [assembleStream] using h []
  induction lines with
  | nil => intro acc; simp
  | cons l ls ih =>
    intro acc
    simp only [List.foldl_cons, List.map_cons, List.flatten_cons]
    rw [streamStep_eq, ih, List.append_assoc]

theorem lineFragment_of_chunk (line frag : List Char)
    (h : isContentChunk line frag) : lineFragment line = frag := by
  obtain ⟨hm, data, hdec, hfrag⟩ := h
  have hne : line ≠ [] := by
    intro h
    rw [h] at hm
    exact absurd hm (by decide)
  unfold lineFragment
  rw [if_neg hne, if_pos hm, hdec]
  show (chunkFragment data).getD [] = frag
  rw [hfrag]
  rfl

/-! ### Claim theorems -/

/-- Claim C1: for every list of section descriptors whose offsets satisfy
`0 ≤ start_position ≤ end_position ≤ len(full_text)`, `extract_text`
produces exactly one `ParagraphRecord` per descriptor, in the same order as
the input array, and the `i`-th record's `content` equals
`full_text[start_position:end_position]` trimmed of leading and trailing
whitespace. -/
theorem extract_text_per_descriptor (full_text : List Char)
    (sections : List Section)
    (hvalid : ∀ sec ∈ sections,
      0 ≤ sec.start_position ∧ sec.start_position ≤ sec.end_position ∧
        sec.end_position ≤ (full_text.length : Int)) :
    (extract_text full_text sections).length = sections.length ∧
    ∀ i, i < sections.length →
      ∃ sec p, sections[i]? = some sec ∧
        (extract_text full_text sections)[i]? = some p ∧
        p.content =
          pyStrip ((full_text.take sec.end_position.toNat).drop
            sec.start_position.toNat) := by
  refine ⟨by simp [extract_text], ?_⟩
  intro i hi
  have hsec : sections[i]? = some sections[i] := List.getElem?_eq_getElem hi
  refine ⟨sections[i],
    create_paragraph_dict
      (pyStrip (pySlice full_text (sections[i]).start_position
        (sections[i]).end_position))
      (sections[i]).heading_level (sections[i]).chapter_path
      (estimate_page_number (sections[i]).start_position full_text),
    hsec, ?_, ?_⟩
  · show (sections.map _)[i]? = _
    rw [List.getElem?_map, hsec]
    rfl
  · have hmem : sections[i] ∈ sections := List.getElem_mem hi
    obtain ⟨h0, h1, h2⟩ := hvalid _ hmem
    have hc : (create_paragraph_dict
        (pyStrip (pySlice full_text (sections[i]).start_position
          (sections[i]).end_position))
        (sections[i]).heading_level (sections[i]).chapter_path
        (estimate_page_number (sections[i]).start_position full_text)).content
        = pyStrip (pySlice full_text (sections[i]).start_position
            (sections[i]).end_position) :=
      pyStrip_idem _
    rw [hc]
    unfold pySlice
    rw [sliceIndex_of_valid _ _ (le_trans h0 h1) h2,
      sliceIndex_of_valid _ _ h0 (le_trans h1 h2)]

/-- Witness for C1: a concrete valid descriptor over a concrete text. -/
theorem extract_text_per_descriptor_witness :
    ∃ sec p, ([⟨0, [], 2, 7⟩] : List Section)[0]? = some sec ∧
      (extract_text ("  hello  world ".data) [⟨0, [], 2, 7⟩])[0]? = some p ∧
      p.content =
        pyStrip ((("  hello  world ".data).take sec.end_position.toNat).drop
          sec.start_position.toNat) :=
  (extract_text_per_descriptor ("  hello  world ".data) [⟨0, [], 2, 7⟩]
    (by decide)).2 0 (by decide)

/-- Claim C9: for every section descriptor list, including descriptors with
overlapping, reversed or out-of-range offsets, `extract_text` is total
(no crash): it produces exactly one record per descriptor; the Python slice
adjusts every offset into the valid range `[0, len]` (`sliceIndex n i ≤ n`);
and each record's content is a contiguous, trimmed piece of the full text
(witnessed by a `pre`/`post` decomposition of the full text). -/
theorem extract_text_no_crash (full_text : List Char) (sections : List Section) :
    (extract_text full_text sections).length = sections.length ∧
    (∀ (n : Nat) (i : Int), sliceIndex n i ≤ n) ∧
    ∀ i, i < sections.length →
      ∃ sec p pre post, sections[i]? = some sec ∧
        (extract_text full_text sections)[i]? = some p ∧
        p.content = pyStrip (pySlice full_text sec.start_position
          sec.end_position) ∧
        full_text = pre ++ p.content ++ post := by
  refine ⟨by simp [extract_text], sliceIndex_le, ?_⟩
  intro i hi
  have hsec : sections[i]? = some sections[i] := List.getElem?_eq_getElem hi
  obtain ⟨pre1, post1, hd1⟩ :=
    pySlice_decomp full_text (sections[i]).start_position (sections[i]).end_position
  obtain ⟨pre2, post2, hd2, _, _⟩ :=
    exists_pyStrip_decomp
      (pySlice full_text (sections[i]).start_position (sections[i]).end_position)
  have hc : (create_paragraph_dict
      (pyStrip (pySlice full_text (sections[i]).start_position
        (sections[i]).end_position))
      (sections[i]).heading_level (sections[i]).chapter_path
      (estimate_page_number (sections[i]).start_position full_text)).content
      = pyStrip (pySlice full_text (sections[i]).start_position
          (sections[i]).end_position) :=
    pyStrip_idem _
  refine ⟨sections[i],
    create_paragraph_dict
      (pyStrip (pySlice full_text (sections[i]).start_position
        (sections[i]).end_position))
      (sections[i]).heading_level (sections[i]).chapter_path
      (estimate_page_number (sections[i]).start_position full_text),
    pre1 ++ pre2, post2 ++ post1, hsec, ?_, hc, ?_⟩
  · show (sections.map _)[i]? = _
    rw [List.getElem?_map, hsec]
    rfl
  · rw [hc]
    conv_lhs => rw [hd1]
    conv_lhs => rw [hd2]
    simp [List.append_assoc]

/-- Witness for C9: descriptors with negative, reversed and out-of-range
offsets over the text `"hello"`; the reversed one (index 1) is exhibited. -/
theorem extract_text_no_crash_witness :
    ∃ sec p pre post,
      ([⟨0, "A".data, -7, 3⟩, ⟨1, [], 4, 1⟩, ⟨0, [], 2, 100⟩] :
        List Section)[1]? = some sec ∧
      (extract_text ("hello".data)
        [⟨0, "A".data, -7, 3⟩, ⟨1, [], 4, 1⟩, ⟨0, [], 2, 100⟩])[1]? = some p ∧
      p.content = pyStrip (pySlice ("hello".data) sec.start_position
        sec.end_position) ∧
      "hello".data = pre ++ p.content ++ post :=
  (extract_text_no_crash ("hello".data)
    [⟨0, "A".data, -7, 3⟩, ⟨1, [], 4, 1⟩, ⟨0, [], 2, 100⟩]).2.2 1 (by decide)

/-- Counterexample for C7: the fallback literal for a body descriptor with an
empty chapter path is `"未类"` in `para.py`, not `"未分类"` as claimed; and in
`para-kimi.py` the caller always passes the singleton stack
`[(heading_level, chapter_path)]`, so an empty chapter path yields the
string `" "` (a `'#' * 0`-formatted entry), not the fallback either. -/
theorem chapter_fallback_counterexample :
    (create_paragraph_dict ("text".data) 0 [] 1).chapter = "未类".data ∧
    "未类".data ≠ "未分类".data ∧
    (Kimi.create_paragraph_dict ("text".data) 0 [(0, [])] 1).chapter = " ".data := by
  refine ⟨rfl, by decide, ?_⟩
  simp [Kimi.create_paragraph_dict, List.intercalate]

/-- Claim C7 (amended): in `para.py` the chapter of a heading
(`heading_level > 0`) is `('#' * heading_level) + " " + content`, and the
chapter of a body descriptor is the supplied `chapter_path`, with fallback
literal `"未类"` when the chapter path is empty; in `para-kimi.py`, called
with its actual singleton chapter stack, a body descriptor's chapter is
`" " + chapter_path`.  The claimed example `heading_level=2`,
`content="Methods"` does yield `"## Methods"`. -/
theorem chapter_formatting_para_and_kimi (content chapter_path : List Char)
    (lvl page : Int) :
    (create_paragraph_dict content lvl chapter_path page).chapter =
      (if 0 < lvl then List.replicate lvl.toNat '#' ++ " ".data ++ content
       else if chapter_path = [] then ("未类".data) else chapter_path) ∧
    (Kimi.create_paragraph_dict content lvl [(0, chapter_path)] page).chapter =
      (if 0 < lvl then List.replicate lvl.toNat '#' ++ " ".data ++ content
       else (" ".data) ++ chapter_path) ∧
    (create_paragraph_dict ("Methods".data) 2 [] 1).chapter = "## Methods".data := by
  refine ⟨rfl, ?_, by decide⟩
  by_cases h : 0 < lvl
  · simp [Kimi.create_paragraph_dict, h]
  · simp [Kimi.create_paragraph_dict, h, List.intercalate]

/-- Claim C8: for `start_position ≥ 0` the estimated page number equals
`max(1, start_position // 2000 + 1)`, is at least 1, is monotone
non-decreasing in `start_position`, and `0 ↦ 1`, `4500 ↦ 3`. -/
theorem estimate_page_number_spec (s t : Int) (ft ft' : List Char)
    (hs : 0 ≤ s) (hst : s ≤ t) :
    estimate_page_number s ft = max 1 (s.fdiv 2000 + 1) ∧
    1 ≤ estimate_page_number s ft ∧
    estimate_page_number s ft ≤ estimate_page_number t ft' ∧
    estimate_page_number 0 ft = 1 ∧
    estimate_page_number 4500 ft = 3 := by
  unfold estimate_page_number
  simp only [fdiv_2000_eq_ediv]
  refine ⟨trivial, ?_, ?_, ?_, ?_⟩ <;> omega

/-- Witness for C8 at `start_position = 0 ≤ 4500`. -/
theorem estimate_page_number_spec_witness :
    estimate_page_number 0 [] = max 1 ((0 : Int).fdiv 2000 + 1) ∧
    1 ≤ estimate_page_number 0 [] ∧
    estimate_page_number 0 [] ≤ estimate_page_number 4500 [] ∧
    estimate_page_number 0 [] = 1 ∧
    estimate_page_number 4500 [] = 3 :=
  estimate_page_number_spec 0 4500 [] [] (by decide) (by decide)

/-- Claim C10 (implicit): the page estimator is total over all integers; for
every `start_position < 2000` — in particular every negative value — it
returns exactly page 1, and it never returns a value below 1.  The identical
formula of `para-kimi.py` satisfies the same property. -/
theorem estimate_page_number_total_all_ints (s : Int) (ft : List Char) :
    1 ≤ estimate_page_number s ft ∧
    (s < 2000 → estimate_page_number s ft = 1) ∧
    Kimi.estimate_page_number s ft = estimate_page_number s ft := by
  unfold estimate_page_number Kimi.estimate_page_number
  simp only [fdiv_2000_eq_ediv]
  refine ⟨?_, ?_, trivial⟩ <;> omega

/-- Witness for C10 at the negative input `start_position = -1`. -/
theorem estimate_page_number_total_all_ints_witness :
    1 ≤ estimate_page_number (-1) [] ∧
    estimate_page_number (-1) [] = 1 :=
  ⟨(estimate_page_number_total_all_ints (-1) []).1,
   (estimate_page_number_total_all_ints (-1) []).2.1 (by decide)⟩

/-- Claim C2: a single malformed chunk line mid-stream (bearing the
`'data: '` marker but with undecodable JSON after it) does not terminate
assembly: it contributes nothing, and the final accumulated output is the
concatenation of the fragments of the surrounding lines in arrival order —
the same output as if the malformed line had not been delivered at all. -/
theorem stream_malformed_chunk_skipped (pre post : List (List Char))
    (bad : List Char)
    (hmark : pyStartswith bad ("data: ".data) = true)
    (hbad : (jsonDecode (bad.drop 6)).isOk = false) :
    assembleStream (pre ++ bad :: post) =
      (pre.map lineFragment).flatten ++ (post.map lineFragment).flatten ∧
    assembleStream (pre ++ bad :: post) = assembleStream (pre ++ post) := by
  have hne : bad ≠ [] := by
    intro h
    rw [h] at hmark
    exact absurd hmark (by decide)
  have hfrag : lineFragment bad = [] := by
    unfold lineFragment
    rw [if_neg hne, if_pos hmark]
    cases h : jsonDecode (bad.drop 6) with
    | error e => rfl
    | ok v =>
      rw [h] at hbad
      exact Bool.noConfusion hbad
  constructor
  · rw [assembleStream_eq_join]
    simp [hfrag]
  · rw [assembleStream_eq_join, assembleStream_eq_join]
    simp [hfrag]

/-- Witness for C2: a truncated-JSON chunk between two well-formed content
chunks; the fragments `"Hel"` and `"lo"` both survive, in order. -/
theorem stream_malformed_chunk_skipped_witness :
    assembleStream
      (["data: \x7b\"choices\": [\x7b\"finish_reason\": null, \"delta\": \x7b\"content\": \"Hel\"\x7d\x7d]\x7d".data] ++
        "data: \x7btrunc".data ::
        ["data: \x7b\"choices\": [\x7b\"finish_reason\": null, \"delta\": \x7b\"content\": \"lo\"\x7d\x7d]\x7d".data]) =
      (["data: \x7b\"choices\": [\x7b\"finish_reason\": null, \"delta\": \x7b\"content\": \"Hel\"\x7d\x7d]\x7d".data].map
        lineFragment).flatten ++
      (["data: \x7b\"choices\": [\x7b\"finish_reason\": null, \"delta\": \x7b\"content\": \"lo\"\x7d\x7d]\x7d".data].map
        lineFragment).flatten ∧
    assembleStream
      (["data: \x7b\"choices\": [\x7b\"finish_reason\": null, \"delta\": \x7b\"content\": \"Hel\"\x7d\x7d]\x7d".data] ++
        "data: \x7btrunc".data ::
        ["data: \x7b\"choices\": [\x7b\"finish_reason\": null, \"delta\": \x7b\"content\": \"lo\"\x7d\x7d]\x7d".data]) =
      assembleStream
        (["data: \x7b\"choices\": [\x7b\"finish_reason\": null, \"delta\": \x7b\"content\": \"Hel\"\x7d\x7d]\x7d".data] ++
          ["data: \x7b\"choices\": [\x7b\"finish_reason\": null, \"delta\": \x7b\"content\": \"lo\"\x7d\x7d]\x7d".data]) :=
  stream_malformed_chunk_skipped _ _ ("data: \x7btrunc".data) (by decide) (by decide)

/-- Claim C3: the assembler is invariant under chunk splitting: delivering
well-formed content chunks whose fragments concatenate (in arrival order) to
`total` yields exactly `total` — the same output as delivering one single
well-formed chunk carrying all of `total`; no reordering or deduplication
occurs. -/
theorem stream_split_invariance (lines frags : List (List Char))
    (oneLine total : List Char)
    (hchunks : List.Forall₂ isContentChunk lines frags)
    (hone : isContentChunk oneLine total)
    (hjoin : frags.flatten = total) :
    assembleStream lines = total ∧
    assembleStream lines = assembleStream [oneLine] := by
  have hmapeq : lines.map lineFragment = frags := by
    clear hjoin
    induction hchunks with
    | nil => rfl
    | cons h tail ih => simp [List.map_cons, lineFragment_of_chunk _ _ h, ih]
  have h1 : assembleStream lines = total := by
    rw [assembleStream_eq_join, hmapeq, hjoin]
  refine ⟨h1, ?_⟩
  rw [h1, assembleStream_eq_join]
  simp [lineFragment_of_chunk _ _ hone]

/-- Witness for C3: the split delivery `"Hel"`, `"lo"` equals the single
delivery `"Hello"`. -/
theorem stream_split_invariance_witness :
    assembleStream
      ["data: \x7b\"choices\": [\x7b\"finish_reason\": null, \"delta\": \x7b\"content\": \"Hel\"\x7d\x7d]\x7d".data,
       "data: \x7b\"choices\": [\x7b\"finish_reason\": null, \"delta\": \x7b\"content\": \"lo\"\x7d\x7d]\x7d".data] =
      "Hello".data ∧
    assembleStream
      ["data: \x7b\"choices\": [\x7b\"finish_reason\": null, \"delta\": \x7b\"content\": \"Hel\"\x7d\x7d]\x7d".data,
       "data: \x7b\"choices\": [\x7b\"finish_reason\": null, \"delta\": \x7b\"content\": \"lo\"\x7d\x7d]\x7d".data] =
      assembleStream
        ["data: \x7b\"choices\": [\x7b\"finish_reason\": null, \"delta\": \x7b\"content\": \"Hello\"\x7d\x7d]\x7d".data] :=
  stream_split_invariance _ ["Hel".data, "lo".data] _ ("Hello".data)
    (List.Forall₂.cons
      ⟨by decide,
        JValue.obj [("choices".data, JValue.arr
          [JValue.obj [("finish_reason".data, JValue.null),
            ("delta".data, JValue.obj [("content".data, JValue.str ("Hel".data))])]])],
        rfl, rfl⟩
      (List.Forall₂.cons
        ⟨by decide,
          JValue.obj [("choices".data, JValue.arr
            [JValue.obj [("finish_reason".data, JValue.null),
              ("delta".data, JValue.obj [("content".data, JValue.str ("lo".data))])]])],
          rfl, rfl⟩
        List.Forall₂.nil))
    ⟨by decide,
      JValue.obj [("choices".data, JValue.arr
        [JValue.obj [("finish_reason".data, JValue.null),
          ("delta".data, JValue.obj [("content".data, JValue.str ("Hello".data))])]])],
      rfl, rfl⟩
    rfl

/-- Counterexample for C4: the parser only strips the tagged opening marker
`'```json'`, not a bare `'```'`.  The payload decodes on its own, but
wrapped in a bare opening fence it fails to decode.  Moreover a payload
that itself carries fence markers decodes on its own but fails when wrapped
once more in the tagged markers (only one layer is stripped). -/
theorem fence_strip_counterexample :
    analyze_document_parse ("\x7b\"sections\": []\x7d".data) =
      .ok (.obj [("sections".data, .arr [])]) ∧
    (analyze_document_parse ("```\n\x7b\"sections\": []\x7d\n```".data)).isOk =
      false ∧
    analyze_document_parse ("```json\x7b\"sections\": []\x7d```".data) =
      .ok (.obj [("sections".data, .arr [])]) ∧
    (analyze_document_parse
      "```json\n```json\x7b\"sections\": []\x7d```\n```".data).isOk = false :=
  ⟨rfl, rfl, rfl, rfl⟩

/-- Claim C4 (amended): for every payload that decodes to a valid structured
result and does not itself carry fence markers (after trimming it neither
starts with the tagged opening marker `'```json'` nor ends with the closing
marker `'```'`), wrapping it in the *json-tagged* opening marker and the
closing marker, with optional whitespace around the markers, parses to the
same structured result as the unwrapped payload. -/
theorem fence_strip_roundtrip (P wsA wsB w0 w1 : List Char) (v : JValue)
    (hA : ∀ c ∈ wsA, pyIsSpace c = true) (hB : ∀ c ∈ wsB, pyIsSpace c = true)
    (h0 : ∀ c ∈ w0, pyIsSpace c = true) (h1 : ∀ c ∈ w1, pyIsSpace c = true)
    (hpre : pyStartswith (pyStrip P) "```json".data = false)
    (hsuf : pyEndswith (pyStrip P) "```".data = false)
    (hok : analyze_document_parse P = .ok v) :
    analyze_document_parse
      (w0 ++ "```json".data ++ wsA ++ P ++ wsB ++ "```".data ++ w1) = .ok v := by
  unfold analyze_document_parse at hok ⊢
  rw [stripFences_of_wrapped P wsA wsB w0 w1 hA hB h0 h1]
  rw [stripFences_of_plain P hpre hsuf] at hok
  exact hok

/-- Witness for C4 (amended) on a concrete wrapped payload. -/
theorem fence_strip_roundtrip_witness :
    analyze_document_parse
      (" ".data ++ "```json".data ++ "\n".data ++
        "\x7b\"sections\": []\x7d".data ++ "\n".data ++ "```".data ++
        " \n".data) = .ok (.obj [("sections".data, .arr [])]) :=
  have hnl : ∀ c ∈ ("\n".data), pyIsSpace c = true := by decide
  have hsp : ∀ c ∈ (" ".data), pyIsSpace c = true := by decide
  have hspnl : ∀ c ∈ (" \n".data), pyIsSpace c = true := by decide
  fence_strip_roundtrip ("\x7b\"sections\": []\x7d".data) ("\n".data) ("\n".data)
    " ".data (" \n".data) (.obj [("sections".data, .arr [])])
    hnl hnl hsp hspnl (by decide) (by decide) rfl

/-- Claim C5: a payload whose (fence-stripped) content decodes to a JSON
object lacking the top-level `sections` member fails with the
schema-violation `ValueError` naming the missing field, and not with a
`json.JSONDecodeError`. -/
theorem missing_sections_schema_error (payload : List Char)
    (fields : List (List Char × JValue))
    (hparse : jsonDecode (stripFences payload) = .ok (.obj fields))
    (hmiss : ∀ kv ∈ fields, kv.1 ≠ "sections".data) :
    analyze_document_parse payload =
      .schemaError ("返回的JSON缺少\x27sections\x27字段".data) ∧
    ∀ e, analyze_document_parse payload ≠ .jsonError e := by
  have hany : (fields.any fun kv => kv.1 = "sections".data) = false := by
    rw [List.any_eq_false]
    intro kv hkv
    simpa using hmiss kv hkv
  have hc : pyContains ("sections".data) (JValue.obj fields) = .ok false := by
    show Except.ok (fields.any fun kv => decide (kv.1 = "sections".data)) =
      Except.ok false
    rw [hany]
  have h1 : analyze_document_parse payload =
      .schemaError ("返回的JSON缺少\x27sections\x27字段".data) := by
    unfold analyze_document_parse
    rw [hparse]
    show (match pyContains ("sections".data) (JValue.obj fields) with
      | .error _ => AnalyzeOutcome.typeError
      | .ok true => AnalyzeOutcome.ok (JValue.obj fields)
      | .ok false =>
        AnalyzeOutcome.schemaError ("返回的JSON缺少\x27sections\x27字段".data)) = _
    rw [hc]
  refine ⟨h1, fun e he => ?_⟩
  rw [h1] at he
  exact AnalyzeOutcome.noConfusion he

/-- Witness for C5 on the payload `{"a": 1}`. -/
theorem missing_sections_schema_error_witness :
    analyze_document_parse ("\x7b\"a\": 1\x7d".data) =
      .schemaError ("返回的JSON缺少\x27sections\x27字段".data) ∧
    ∀ e, analyze_document_parse ("\x7b\"a\": 1\x7d".data) ≠ .jsonError e :=
  missing_sections_schema_error ("\x7b\"a\": 1\x7d".data)
    [("a".data, .num ("1".data))] rfl
    (fun kv hkv => by
      rw [List.mem_singleton] at hkv
      rw [hkv]
      decide)

/-- Claim C6 (code-bug evidence): on every strict-decoding failure the
`except json.JSONDecodeError` handler prints the message and the
line/column, but then evaluates `e.char` — an attribute the exception does
not have — so it aborts with an `AttributeError`: the surrounding
source-line content is never printed, for any error and any content.  At
the concrete failing payload `"{"` the whole report is just the header and
the line/column position, terminated by the `AttributeError`. -/
theorem json_error_report_missing_source_line :
    (∀ (e : JSONDecodeError) (content : List Char),
      jsonErrorHandler e content =
        ([ReportItem.errorHeader e.msg,
          ReportItem.errorPosition e.lineno e.colno],
          HandlerExit.attributeError) ∧
      ∀ l, ReportItem.sourceLine l ∉ (jsonErrorHandler e content).1) ∧
    analyze_document_report ("\x7b".data) =
      ([ReportItem.errorHeader ("Expecting property name enclosed in double quotes"),
        ReportItem.errorPosition 1 2], some HandlerExit.attributeError) := by
  have hh : ∀ (e : JSONDecodeError) (content : List Char),
      jsonErrorHandler e content =
        ([ReportItem.errorHeader e.msg,
          ReportItem.errorPosition e.lineno e.colno],
          HandlerExit.attributeError) := by
    intro e content
    have hchar : getattrJsonError e ("char") = none := rfl
    unfold jsonErrorHandler
    rw [hchar]
  constructor
  · intro e content
    refine ⟨hh e content, ?_⟩
    intro l
    rw [hh e content]
    simp
  · rfl

end E2C
